import Mathlib

/-!
Verification of the action-selection engine of the RLVR-World web agent
(`lang_wm/webagent/agent/agent.py`).

The engine is shallowly embedded:
* `Action` models the structured action record; external parsers
  (`create_id_based_action`, `create_playwright_action`) and the prompt
  constructor's `extract_action` are collaborators, modelled as function
  parameters.  A Python `ActionParsingError` is modelled as `none`.
* `call_llm` is modelled as an oracle: for the single-shot policy a function
  from the attempt index to the model's text, for the search policy a
  function from the round index to the batch of sampled texts.
* An uncaught Python exception (`ValueError` for an unknown action-set tag,
  `NameError` for the unbound loop variable in `SearchAgent`) is modelled by
  the `Except` error channel `EngineError`.
* Floating point confidence values are modelled over `ℚ` (exact arithmetic).
-/

namespace WebAgent

/-- Structured action record: the action-type tag (the sentinel produced by
`create_none_action` has tag `"none"`), the raw model text that produced the
action (`raw_prediction`), and the vote-mode confidence (`prob`). -/
structure Action where
  action_type : String
  raw_prediction : String
  prob : Option ℚ
deriving Repr, DecidableEq

/-- Python `create_none_action()`: the sentinel no-op action. -/
def create_none_action : Action :=
  { action_type := "none", raw_prediction := "", prob := none }

/-- Uncaught Python exceptions of the engine: `ValueError` for an unknown
action-set tag and `NameError` for the unbound loop variable in
`SearchAgent.next_action`. -/
inductive EngineError where
  | valueError (tag : String)
  | nameError
deriving Repr, DecidableEq

/-! ### Caption enrichment (shared pre-step of both policies) -/

/-- One iteration of the caption loop of `PromptAgent.next_action` /
`SearchAgent.next_action` (`agent.py` lines 170-176 resp. 286-292): append
`Input image i+1: "<caption>"` (capitalized only for the first image) and,
whenever more than one image was supplied, a trailing `", "`. -/
def captionStep (total : Nat) (acc : String) (p : Nat × String) : String :=
  let base :=
    if p.1 = 0 then
      acc ++ "Input image " ++ toString (p.1 + 1) ++ ": \"" ++ p.2 ++ "\""
    else
      acc ++ "input image " ++ toString (p.1 + 1) ++ ": \"" ++ p.2 ++ "\""
  if 1 < total then base ++ ", " else base

/-- The `image_input_caption` string accumulated over all images; `captions`
is the list of captioner outputs, one per image, in input order. -/
def image_input_caption (captions : List String) : String :=
  captions.enum.foldl (captionStep captions.length) ""

/-- The rewritten intent `f"{image_input_caption}\nIntent: {intent}"`. -/
def rewrittenIntent (captions : List String) (intent : String) : String :=
  ((image_input_caption captions ++ "\n") ++ "Intent: ") ++ intent

section Engine

variable (extract_action : String → Option String)
variable (create_id_based_action create_playwright_action : String → Option Action)

/-- Action-set-tag dispatch of `PromptAgent.next_action` and
`SearchAgent.next_action` (`agent.py` lines 209-218 / 334-343): the tags
`"id_accessibility_tree"` and `"som"` use `create_id_based_action`,
`"playwright"` uses `create_playwright_action`, and any other tag raises an
uncaught `ValueError`.  A parser result of `none` models an
`ActionParsingError` raised by the creator. -/
def createByTag (tag s : String) : Except EngineError (Option Action) :=
  if tag = "id_accessibility_tree" then .ok (create_id_based_action s)
  else if tag = "playwright" then .ok (create_playwright_action s)
  else if tag = "som" then .ok (create_id_based_action s)
  else .error (.valueError tag)

/-- The tag is one of the three recognized by the policies' dispatch. -/
def TagKnown (tag : String) : Prop :=
  tag = "id_accessibility_tree" ∨ tag = "playwright" ∨ tag = "som"

/-- The `try` block body of one attempt of `PromptAgent.next_action`
(`agent.py` lines 205-220): extract the action string from the (already
force-prefixed) response, dispatch on the tag to create the action, and
record the response as `raw_prediction`.  `Except.ok none` models a caught
`ActionParsingError` (from extraction or creation); the `ValueError` of an
unknown tag is not caught and surfaces on the error channel. -/
def parseAttempt (tag response : String) : Except EngineError (Option Action) :=
  match extract_action response with
  | none => .ok none
  | some parsed =>
    match createByTag create_id_based_action create_playwright_action tag parsed with
    | .error e => .error e
    | .ok none => .ok none
    | .ok (some a) => .ok (some { a with raw_prediction := response })

/-- The retry loop of `PromptAgent.next_action` (`agent.py` lines 195-227).
`call_llm i` is the model's text for the `i`-th query (0-based); `fp` is the
configured force-prefix, prepended to every response before parsing.  On a
successful parse the annotated action is returned together with the number
of queries issued; on a parse failure the loop returns the sentinel no-op
action (annotated with the last response) once the attempt counter `i + 1`
has reached `max_retry`, and otherwise retries. -/
def promptAgentLoop (tag fp : String) (call_llm : Nat → String)
    (max_retry : Nat) (i : Nat) : Except EngineError (Action × Nat) :=
  let response := fp ++ call_llm i
  match parseAttempt extract_action create_id_based_action create_playwright_action
      tag response with
  | .error e => .error e
  | .ok (some a) => .ok (a, i + 1)
  | .ok none =>
    if max_retry ≤ i + 1 then
      .ok ({ create_none_action with raw_prediction := response }, i + 1)
    else
      promptAgentLoop tag fp call_llm max_retry (i + 1)
termination_by max_retry - i
decreasing_by omega

/-- Model of `PromptAgent.next_action` (`agent.py` lines 148-227), reduced to its
query-parse-retry core: prompt construction and caption enrichment happen
before the loop and are reflected in the `call_llm` oracle and the
`rewrittenIntent` function.  Returns the committed action together with the
number of model queries issued. -/
def prompt_next_action (tag fp : String) (call_llm : Nat → String)
    (max_retry : Nat) : Except EngineError (Action × Nat) :=
  promptAgentLoop extract_action create_id_based_action create_playwright_action
    tag fp call_llm max_retry 0

/-- Result of one parse attempt, with the tag dispatch resolved to a single
creator function `create`: extract the action string and create the action,
annotating it with the response.  `parseAttempt_eq` shows that this is what
`parseAttempt` computes whenever the tag dispatch resolves. -/
def pureAttempt (create : String → Option Action) (response : String) :
    Option Action :=
  (extract_action response).bind fun k =>
    (create k).map fun a => { a with raw_prediction := response }

theorem parseAttempt_eq (tag : String) (create : String → Option Action)
    (hres : ∀ s, createByTag create_id_based_action create_playwright_action tag s
      = .ok (create s)) (response : String) :
    parseAttempt extract_action create_id_based_action create_playwright_action
      tag response = .ok (pureAttempt extract_action create response) := by
  cases hx : extract_action response with
  | none => simp [parseAttempt, pureAttempt, hx]
  | some k =>
    cases hc : create k with
    | none => simp [parseAttempt, pureAttempt, hx, hres k, hc]
    | some a₀ => simp [parseAttempt, pureAttempt, hx, hres k, hc]

theorem pureAttempt_some_elim {create : String → Option Action}
    {response : String} {a : Action}
    (h : pureAttempt extract_action create response = some a) :
    ∃ k a₀, extract_action response = some k ∧ create k = some a₀ ∧
      a = { a₀ with raw_prediction := response } := by
  cases hx : extract_action response with
  | none => simp [pureAttempt, hx] at h
  | some k =>
    cases hc : create k with
    | none => simp [pureAttempt, hx, hc] at h
    | some a₀ =>
      have h' : ({ a₀ with raw_prediction := response } : Action) = a := by
        simpa [pureAttempt, hx, hc] using h
      exact ⟨k, a₀, rfl, hc, h'.symm⟩

/-- Master description of the retry loop: starting from attempt index `i` it
terminates with an `ok` result `(a, m)`, `m` counts all queries including the
`i` earlier ones, the committed action is annotated with the final response,
every non-final attempt parse-failed, and the action is either the parsed
action of the final attempt or the sentinel after budget exhaustion. -/
theorem promptAgentLoop_run (tag fp : String) (call_llm : Nat → String)
    (max_retry : Nat) (create : String → Option Action)
    (hres : ∀ s, createByTag create_id_based_action create_playwright_action tag s
      = .ok (create s)) :
    ∀ i, ∃ a m,
      promptAgentLoop extract_action create_id_based_action create_playwright_action
        tag fp call_llm max_retry i = .ok (a, m) ∧
      i < m ∧ m ≤ max (i + 1) max_retry ∧
      a.raw_prediction = fp ++ call_llm (m - 1) ∧
      (∀ t, i ≤ t → t + 1 < m →
        pureAttempt extract_action create (fp ++ call_llm t) = none) ∧
      ((∃ a₀, pureAttempt extract_action create (fp ++ call_llm (m - 1))
          = some a₀ ∧ a = a₀) ∨
        (a = { create_none_action with raw_prediction := fp ++ call_llm (m - 1) } ∧
          max_retry ≤ m ∧
          pureAttempt extract_action create (fp ++ call_llm (m - 1)) = none))
  | i => by
    rw [promptAgentLoop]
    rw [parseAttempt_eq extract_action create_id_based_action
      create_playwright_action tag create hres]
    cases hp : pureAttempt extract_action create (fp ++ call_llm i) with
    | some a =>
      refine ⟨a, i + 1, by simp, by omega, by simp, ?_, ?_, ?_⟩
      · simp only [Nat.add_sub_cancel]
        have : a.raw_prediction = fp ++ call_llm i := by
          cases hx : extract_action (fp ++ call_llm i) with
          | none => simp [pureAttempt, hx] at hp
          | some k =>
            cases hc : create k with
            | none => simp [pureAttempt, hx, hc] at hp
            | some a₀ =>
              simp [pureAttempt, hx, hc] at hp
              rw [← hp]
        exact this
      · intro t ht ht'; omega
      · exact .inl ⟨a, by simpa using hp⟩
    | none =>
      by_cases hstop : max_retry ≤ i + 1
      · simp only [hstop, if_true]
        refine ⟨_, i + 1, rfl, by omega, by omega, by simp, ?_, ?_⟩
        · intro t ht ht'; omega
        · exact .inr ⟨by simp, by omega, by simpa using hp⟩
      · simp only [hstop, if_false]
        obtain ⟨a, m, hrun, him, hm, hraw, hfail, hlast⟩ :=
          promptAgentLoop_run tag fp call_llm max_retry create hres (i + 1)
        refine ⟨a, m, hrun, by omega, by omega, hraw, ?_, hlast⟩
        intro t ht ht'
        rcases Nat.eq_or_lt_of_le ht with h | h
        · simpa [← h] using hp
        · exact hfail t h ht'
termination_by i => max_retry - i
decreasing_by omega

end Engine

/-! ### SearchAgent (sample-and-vote policy) -/

/-- One vote-tally entry of a `SearchAgent` round.  The source keeps two
insertion-ordered dicts with identical keys (`all_actions` mapping the
canonical action string to its representative `Action`, and
`parsed_actions_count` mapping it to its tally); they are fused here into a
single insertion-ordered association list.  `idx` is a ghost field recording
the insertion position (the first-seen rank of the key), used to state the
tie-break order. -/
structure VoteEntry where
  key : String
  act : Action
  count : Nat
  idx : Nat
deriving Repr, DecidableEq

/-- Membership test `parsed_response in all_actions`. -/
def hasKey (es : List VoteEntry) (k : String) : Bool :=
  es.any fun e => e.key = k

/-- The increment `parsed_actions_count[parsed_response] += 1` on the fused
association list (bumps the first entry with the given key). -/
def bumpCount : List VoteEntry → String → List VoteEntry
  | [], _ => []
  | e :: es, k =>
    if e.key = k then { e with count := e.count + 1 } :: es
    else e :: bumpCount es k

section Engine

variable (extract_action : String → Option String)
variable (create_id_based_action create_playwright_action : String → Option Action)

/-- One iteration of the per-sample `for response in responses` loop of
`SearchAgent.next_action` (`agent.py` lines 325-348).  The state is the
entry list together with the `response` loop variable register (`none` while
it is still unbound).  The force-prefix is applied first; an extraction
failure silently skips the sample; a key already present is tallied without
re-creating the action; otherwise the tag dispatch creates the action (an
unknown tag raising `ValueError`), a creation failure skips the sample, and
a fresh entry with tally 1 and the response as `raw_prediction` is
appended. -/
def processSample (tag fp : String) (st : List VoteEntry × Option String)
    (r : String) : Except EngineError (List VoteEntry × Option String) :=
  let response := fp ++ r
  let es := st.1
  match extract_action response with
  | none => .ok (es, some response)
  | some parsed =>
    if hasKey es parsed then .ok (bumpCount es parsed, some response)
    else
      match createByTag create_id_based_action create_playwright_action tag parsed with
      | .error e => .error e
      | .ok none => .ok (es, some response)
      | .ok (some a) =>
        .ok (es ++ [{ key := parsed, act := { a with raw_prediction := response },
                      count := 1, idx := es.length }], some response)

/-- The whole per-sample loop over one round's batch of responses. -/
def roundFold (tag fp : String) (responses : List String)
    (st : List VoteEntry × Option String) :
    Except EngineError (List VoteEntry × Option String) :=
  match responses with
  | [] => .ok st
  | r :: rs =>
    match processSample extract_action create_id_based_action
        create_playwright_action tag fp st r with
    | .error e => .error e
    | .ok st' =>
      roundFold tag fp rs st'

/-- Outcome of the `while True` loop of `SearchAgent.next_action`: either a
round produced at least one entry (`voted`), or the retry budget was
exhausted and the sentinel branch was taken with the given raw text. -/
inductive SearchOutcome where
  | voted (entries : List VoteEntry)
  | sentinel (raw : String)
deriving Repr, DecidableEq

/-- The `while True` retry loop of `SearchAgent.next_action` (`agent.py`
lines 311-359).  `call_llm i` is the batch of sampled texts of round `i`
(the source's `str` case is a one-element batch); `last` is the `response`
loop variable, which persists across rounds and is unbound (`none`) until
the first sample is iterated.  A round with at least one entry ends the
loop; otherwise, once the round counter `i + 1` reaches `max_retry`, the
sentinel branch reads the `response` register — raising `NameError` if it
was never bound.  Returns the outcome with the number of rounds run. -/
def searchAgentLoop (tag fp : String) (call_llm : Nat → List String)
    (max_retry : Nat) (i : Nat) (last : Option String) :
    Except EngineError (SearchOutcome × Nat) :=
  match roundFold extract_action create_id_based_action create_playwright_action
      tag fp (call_llm i) ([], last) with
  | .error e => .error e
  | .ok (es, last') =>
    if 0 < es.length then .ok (.voted es, i + 1)
    else if max_retry ≤ i + 1 then
      match last' with
      | some r => .ok (.sentinel r, i + 1)
      | none => .error .nameError
    else
      searchAgentLoop tag fp call_llm max_retry (i + 1) last'
termination_by max_retry - i
decreasing_by omega

end Engine

/-! ### Round invariant -/

/-- First-occurrence deduplication (auxiliary): drop elements already seen. -/
def dedupFirstAux : List String → List String → List String
  | _, [] => []
  | seen, k :: ks =>
    if k ∈ seen then dedupFirstAux seen ks
    else k :: dedupFirstAux (k :: seen) ks

/-- Distinct elements in first-seen order — the key order of a Python dict
populated by repeated insertion. -/
def dedupFirst (ks : List String) : List String := dedupFirstAux [] ks

theorem mem_dedupFirstAux {x : String} :
    ∀ {seen l : List String}, x ∈ dedupFirstAux seen l ↔ x ∈ l ∧ x ∉ seen
  | _, [] => by simp [dedupFirstAux]
  | seen, k :: ks => by
    have ih₁ := @mem_dedupFirstAux x seen ks
    have ih₂ := @mem_dedupFirstAux x (k :: seen) ks
    by_cases hk : k ∈ seen
    · rw [dedupFirstAux, if_pos hk, ih₁]
      simp only [List.mem_cons]
      constructor
      · rintro ⟨h₁, h₂⟩
        exact ⟨Or.inr h₁, h₂⟩
      · rintro ⟨rfl | h₁, h₂⟩
        · exact absurd hk h₂
        · exact ⟨h₁, h₂⟩
    · rw [dedupFirstAux, if_neg hk]
      simp only [List.mem_cons, ih₂, List.mem_cons]
      constructor
      · rintro (rfl | ⟨h₁, h₂⟩)
        · exact ⟨Or.inl rfl, hk⟩
        · exact ⟨Or.inr h₁, fun hs => h₂ (Or.inr hs)⟩
      · rintro ⟨rfl | h₁, h₂⟩
        · exact Or.inl rfl
        · by_cases hxk : x = k
          · exact Or.inl hxk
          · refine Or.inr ⟨h₁, ?_⟩
            rintro (h | h)
            · exact hxk h
            · exact h₂ h

theorem mem_dedupFirst {x : String} {l : List String} :
    x ∈ dedupFirst l ↔ x ∈ l := by
  rw [dedupFirst, mem_dedupFirstAux]
  simp

theorem dedupFirstAux_append_singleton (k : String) :
    ∀ (seen l : List String),
      dedupFirstAux seen (l ++ [k])
        = dedupFirstAux seen l ++ (if k ∈ seen ∨ k ∈ l then [] else [k])
  | seen, [] => by
    by_cases hk : k ∈ seen <;> simp [dedupFirstAux, hk]
  | seen, k' :: ks => by
    by_cases hk' : k' ∈ seen
    · rw [List.cons_append, dedupFirstAux, if_pos hk', dedupFirstAux, if_pos hk',
        dedupFirstAux_append_singleton k seen ks]
      by_cases h₁ : k ∈ seen ∨ k ∈ ks
      · rw [if_pos h₁, if_pos ?_]
        rcases h₁ with h | h
        · exact Or.inl h
        · exact Or.inr (List.mem_cons_of_mem _ h)
      · rw [if_neg h₁, if_neg ?_]
        rintro (h | h)
        · exact h₁ (Or.inl h)
        · rcases List.mem_cons.1 h with rfl | h
          · exact h₁ (Or.inl hk')
          · exact h₁ (Or.inr h)
    · rw [List.cons_append, dedupFirstAux, if_neg hk', dedupFirstAux, if_neg hk',
        dedupFirstAux_append_singleton k (k' :: seen) ks, List.cons_append]
      by_cases h₁ : k ∈ k' :: seen ∨ k ∈ ks
      · rw [if_pos h₁, if_pos ?_]
        rcases h₁ with h | h
        · rcases List.mem_cons.1 h with rfl | h
          · exact Or.inr (List.mem_cons_self _ _)
          · exact Or.inl h
        · exact Or.inr (List.mem_cons_of_mem _ h)
      · rw [if_neg h₁, if_neg ?_]
        rintro (h | h)
        · exact h₁ (Or.inl (List.mem_cons_of_mem _ h))
        · rcases List.mem_cons.1 h with rfl | h
          · exact h₁ (Or.inl (List.mem_cons_self _ _))
          · exact h₁ (Or.inr h)

theorem dedupFirst_append_mem {k : String} {l : List String} (h : k ∈ l) :
    dedupFirst (l ++ [k]) = dedupFirst l := by
  rw [dedupFirst, dedupFirst, dedupFirstAux_append_singleton, if_pos (.inr h),
    List.append_nil]

theorem dedupFirst_append_not_mem {k : String} {l : List String} (h : k ∉ l) :
    dedupFirst (l ++ [k]) = dedupFirst l ++ [k] := by
  rw [dedupFirst, dedupFirst, dedupFirstAux_append_singleton,
    if_neg (by simp [h])]

theorem dedupFirst_eq_nil {l : List String} : dedupFirst l = [] ↔ l = [] := by
  cases l with
  | nil => simp [dedupFirst, dedupFirstAux]
  | cons k ks => simp [dedupFirst, dedupFirstAux]

/-- Entry indices are consecutive starting from `n` (the ghost `idx` fields
record insertion positions). -/
def IdxOK : Nat → List VoteEntry → Prop
  | _, [] => True
  | n, e :: es => e.idx = n ∧ IdxOK (n + 1) es

theorem idxOK_le {n : Nat} : ∀ {es : List VoteEntry}, IdxOK n es →
    ∀ e ∈ es, n ≤ e.idx
  | [], _ => by simp
  | e' :: es, h => by
    intro e he
    rcases List.mem_cons.1 he with rfl | he
    · exact Nat.le_of_eq h.1.symm
    · exact Nat.le_of_succ_le (idxOK_le h.2 e he)

theorem idxOK_pairwise {n : Nat} : ∀ {es : List VoteEntry}, IdxOK n es →
    es.Pairwise fun a b => a.idx < b.idx
  | [], _ => List.Pairwise.nil
  | e :: es, h => by
    refine List.Pairwise.cons (fun e' he' => ?_) (idxOK_pairwise h.2)
    have h1 : e.idx = n := h.1
    have h2 := idxOK_le h.2 e' he'
    omega

theorem idxOK_append_singleton {n : Nat} :
    ∀ {es : List VoteEntry} {x : VoteEntry}, IdxOK n es → x.idx = n + es.length →
      IdxOK n (es ++ [x])
  | [], x, _, hx => by simpa [IdxOK] using hx
  | e :: es, x, h, hx => by
    refine ⟨h.1, idxOK_append_singleton h.2 ?_⟩
    simp at hx ⊢
    omega

theorem idxOK_map {n : Nat} (f : VoteEntry → VoteEntry)
    (hf : ∀ e, (f e).idx = e.idx) :
    ∀ {es : List VoteEntry}, IdxOK n es → IdxOK n (es.map f)
  | [], _ => trivial
  | e :: es, h => ⟨by rw [hf]; exact h.1, idxOK_map f hf h.2⟩

section Engine

variable (extract_action : String → Option String)
variable (create_id_based_action create_playwright_action : String → Option Action)

/-- Canonical key of one sample of a round, as it ends up in the tally: the
force-prefixed text must extract to an action string whose creation (under
the resolved creator `create`) succeeds.  Samples whose extraction or
creation fails are silently discarded by the loop. -/
def fullKey (create : String → Option Action) (fp r : String) : Option String :=
  match extract_action (fp ++ r) with
  | none => none
  | some k => if (create k).isSome then some k else none

/-- Invariant relating the samples iterated so far (`processed`) to the
fused tally/action state `es` of a `SearchAgent` round:
keys are the fully-parsed keys in first-seen order, each tally counts that
key's fully-parsed occurrences, each representative action is the created
action annotated with the first response that extracted to its key, indices
record insertion order, and tallies are positive. -/
structure RoundInv (create : String → Option Action) (fp : String)
    (processed : List String) (es : List VoteEntry) : Prop where
  keys_eq : es.map (fun e => e.key)
    = dedupFirst (processed.filterMap (fullKey extract_action create fp))
  counts : ∀ e ∈ es,
    e.count = (processed.filterMap (fullKey extract_action create fp)).count e.key
  acts : ∀ e ∈ es, ∃ a₀ r, create e.key = some a₀ ∧
    processed.find? (fun r' => decide (extract_action (fp ++ r') = some e.key))
      = some r ∧
    e.act = { a₀ with raw_prediction := fp ++ r }
  idx_ok : IdxOK 0 es
  count_pos : ∀ e ∈ es, 1 ≤ e.count

end Engine

theorem nodup_dedupFirstAux : ∀ (seen l : List String),
    (dedupFirstAux seen l).Nodup
  | _, [] => List.nodup_nil
  | seen, k :: ks => by
    by_cases hk : k ∈ seen
    · rw [dedupFirstAux, if_pos hk]
      exact nodup_dedupFirstAux seen ks
    · rw [dedupFirstAux, if_neg hk]
      refine List.nodup_cons.2 ⟨fun hmem => ?_, nodup_dedupFirstAux _ ks⟩
      exact (mem_dedupFirstAux.1 hmem).2 (List.mem_cons_self _ _)

theorem nodup_dedupFirst (l : List String) : (dedupFirst l).Nodup :=
  nodup_dedupFirstAux [] l

theorem hasKey_iff {es : List VoteEntry} {k : String} :
    hasKey es k = true ↔ k ∈ es.map fun e => e.key := by
  simp only [hasKey, List.any_eq_true, decide_eq_true_eq, List.mem_map]

theorem bumpCount_eq {k : String} :
    ∀ {es : List VoteEntry}, (es.map fun e => e.key).Nodup →
      bumpCount es k
        = es.map fun e => if e.key = k then { e with count := e.count + 1 } else e
  | [], _ => rfl
  | e :: es, hnd => by
    rw [List.map_cons, List.nodup_cons] at hnd
    by_cases hek : e.key = k
    · rw [bumpCount, if_pos hek, List.map_cons, if_pos hek]
      congr 1
      refine ((List.map_congr_left fun e' he' => if_neg fun h => ?_).trans
        (List.map_id es)).symm
      apply hnd.1
      rw [hek, ← h]
      exact List.mem_map_of_mem _ he'
    · rw [bumpCount, if_neg hek, List.map_cons, if_neg hek,
        bumpCount_eq hnd.2]

section Engine

variable (extract_action : String → Option String)
variable (create_id_based_action create_playwright_action : String → Option Action)

/-- One sample preserves the round invariant, never errors (once the tag
dispatch resolves), and binds the `response` register to the force-prefixed
sample. -/
theorem processSample_inv (tag fp : String) (create : String → Option Action)
    (hres : ∀ s, createByTag create_id_based_action create_playwright_action tag s
      = .ok (create s))
    {processed : List String} {es : List VoteEntry} (last : Option String)
    (r : String)
    (inv : RoundInv extract_action create fp processed es) :
    ∃ es', processSample extract_action create_id_based_action
        create_playwright_action tag fp (es, last) r = .ok (es', some (fp ++ r)) ∧
      RoundInv extract_action create fp (processed ++ [r]) es' := by
  have hnodup : (es.map fun e => e.key).Nodup := by
    rw [inv.keys_eq]; exact nodup_dedupFirst _
  have hfind_keep : ∀ e ∈ es,
      ∃ a₀ r', create e.key = some a₀ ∧
        (processed ++ [r]).find?
          (fun r'' => decide (extract_action (fp ++ r'') = some e.key)) = some r' ∧
        e.act = { a₀ with raw_prediction := fp ++ r' } := by
    intro e he
    obtain ⟨a₀, r', hc, hf, ha⟩ := inv.acts e he
    exact ⟨a₀, r', hc, by rw [List.find?_append, hf]; rfl, ha⟩
  cases hx : extract_action (fp ++ r) with
  | none =>
    have hfk : fullKey extract_action create fp r = none := by
      simp [fullKey, hx]
    refine ⟨es, by simp [processSample, hx], ?_⟩
    refine ⟨?_, ?_, hfind_keep, inv.idx_ok, inv.count_pos⟩
    · rw [List.filterMap_append]
      simp only [List.filterMap, hfk]
      rw [List.append_nil]
      exact inv.keys_eq
    · intro e he
      rw [List.filterMap_append]
      simp only [List.filterMap, hfk]
      rw [List.append_nil]
      exact inv.counts e he
  | some k =>
    by_cases hin : hasKey es k
    · -- tally an already-seen key
      have hkmem : k ∈ es.map fun e => e.key := hasKey_iff.1 hin
      obtain ⟨e₀, he₀, hk₀⟩ := List.mem_map.1 hkmem
      obtain ⟨a₀, -, hc₀, -⟩ := inv.acts e₀ he₀
      have hck : (create k).isSome := by rw [← hk₀, hc₀]; rfl
      have hfk : fullKey extract_action create fp r = some k := by
        simp [fullKey, hx, hck]
      have hFM : (processed ++ [r]).filterMap (fullKey extract_action create fp)
          = processed.filterMap (fullKey extract_action create fp) ++ [k] := by
        rw [List.filterMap_append]
        simp [List.filterMap, hfk]
      have hkFM : k ∈ processed.filterMap (fullKey extract_action create fp) := by
        rw [inv.keys_eq] at hkmem
        exact mem_dedupFirst.1 hkmem
      refine ⟨bumpCount es k, by simp [processSample, hx, hin], ?_⟩
      rw [bumpCount_eq hnodup]
      have hkeymap : ∀ e : VoteEntry,
          ((fun e => if e.key = k then { e with count := e.count + 1 } else e) e).key
            = e.key := by
        intro e
        by_cases h : e.key = k <;> simp [h]
      constructor
      · rw [List.map_map]
        have : ((fun e : VoteEntry => e.key) ∘
            fun e => if e.key = k then { e with count := e.count + 1 } else e)
            = fun e : VoteEntry => e.key := funext fun e => hkeymap e
        rw [this, hFM, dedupFirst_append_mem hkFM]
        exact inv.keys_eq
      · intro e' he'
        obtain ⟨e, he, rfl⟩ := List.mem_map.1 he'
        rw [hFM, List.count_append]
        by_cases h : e.key = k
        · rw [if_pos h]
          show e.count + 1
            = (processed.filterMap (fullKey extract_action create fp)).count e.key
              + [k].count e.key
          rw [inv.counts e he, h]
          simp
        · simp only [if_neg h]
          have : [k].count e.key = 0 := by
            refine List.count_eq_zero.2 ?_
            simp [h]
          rw [this, Nat.add_zero]
          exact inv.counts e he
      · intro e' he'
        obtain ⟨e, he, rfl⟩ := List.mem_map.1 he'
        obtain ⟨a₁, r', hc, hf, ha⟩ := hfind_keep e he
        by_cases h : e.key = k
        · rw [if_pos h]
          exact ⟨a₁, r', hc, hf, ha⟩
        · rw [if_neg h]
          exact ⟨a₁, r', hc, hf, ha⟩
      · exact idxOK_map _ (fun e => by by_cases h : e.key = k <;> simp [h])
          inv.idx_ok
      · intro e' he'
        obtain ⟨e, he, rfl⟩ := List.mem_map.1 he'
        have hcp := inv.count_pos e he
        by_cases h : e.key = k
        · rw [if_pos h]
          exact Nat.succ_le_succ (Nat.zero_le e.count)
        · rw [if_neg h]
          exact hcp
    · -- first occurrence of a key
      have hknot : k ∉ es.map fun e => e.key := fun h => hin (hasKey_iff.2 h)
      cases hc : create k with
      | none =>
        have hfk : fullKey extract_action create fp r = none := by
          simp [fullKey, hx, hc]
        refine ⟨es, by simp [processSample, hx, hin, hres k, hc], ?_⟩
        refine ⟨?_, ?_, hfind_keep, inv.idx_ok, inv.count_pos⟩
        · rw [List.filterMap_append]
          simp only [List.filterMap, hfk]
          rw [List.append_nil]
          exact inv.keys_eq
        · intro e he
          rw [List.filterMap_append]
          simp only [List.filterMap, hfk]
          rw [List.append_nil]
          exact inv.counts e he
      | some a₀ =>
        have hfk : fullKey extract_action create fp r = some k := by
          simp [fullKey, hx, hc]
        have hFM : (processed ++ [r]).filterMap (fullKey extract_action create fp)
            = processed.filterMap (fullKey extract_action create fp) ++ [k] := by
          rw [List.filterMap_append]
          simp [List.filterMap, hfk]
        have hkFM : k ∉ processed.filterMap (fullKey extract_action create fp) := by
          intro h
          exact hknot (by rw [inv.keys_eq]; exact mem_dedupFirst.2 h)
        refine ⟨es ++ [⟨k, { a₀ with raw_prediction := fp ++ r }, 1, es.length⟩],
          by simp [processSample, hx, hin, hres k, hc], ?_⟩
        constructor
        · rw [List.map_append, hFM, dedupFirst_append_not_mem hkFM, inv.keys_eq]
          rfl
        · intro e he
          rcases List.mem_append.1 he with he | he
          · have hek : e.key ≠ k := fun h =>
              hknot (h ▸ List.mem_map_of_mem _ he)
            rw [hFM, List.count_append]
            have : [k].count e.key = 0 := by
              refine List.count_eq_zero.2 ?_
              simp [hek]
            rw [this, Nat.add_zero]
            exact inv.counts e he
          · rw [List.mem_singleton.1 he, hFM, List.count_append]
            show 1 = (processed.filterMap
                (fullKey extract_action create fp)).count k + [k].count k
            rw [List.count_eq_zero.2 hkFM]
            simp
        · intro e he
          rcases List.mem_append.1 he with he | he
          · exact hfind_keep e he
          · rw [List.mem_singleton.1 he]
            refine ⟨a₀, r, hc, ?_, rfl⟩
            show (processed ++ [r]).find?
              (fun r'' => decide (extract_action (fp ++ r'') = some k)) = some r
            have hnone : processed.find?
                (fun r'' => decide (extract_action (fp ++ r'') = some k)) = none := by
              refine List.find?_eq_none.2 fun r' hr' hp => ?_
              have hx' : extract_action (fp ++ r') = some k := of_decide_eq_true hp
              exact hkFM (List.mem_filterMap.2 ⟨r', hr',
                by simp [fullKey, hx', hc]⟩)
            rw [List.find?_append, hnone]
            simp [List.find?, hx]
        · exact idxOK_append_singleton inv.idx_ok (by simp)
        · intro e he
          rcases List.mem_append.1 he with he | he
          · exact inv.count_pos e he
          · rw [List.mem_singleton.1 he]

end Engine

/-- Final value of the `response` loop variable after iterating one batch:
each iterated sample binds it to the force-prefixed sample text. -/
def regRound (fp : String) (rs : List String) (l : Option String) :
    Option String :=
  rs.foldl (fun _ r => some (fp ++ r)) l

/-- Final value of the `response` register after `n` whole rounds starting
at round `i`. -/
def regFoldN (fp : String) (call_llm : Nat → List String) :
    Nat → Nat → Option String → Option String
  | _, 0, l => l
  | i, n + 1, l => regFoldN fp call_llm (i + 1) n (regRound fp (call_llm i) l)

theorem regRound_eq_none {fp : String} :
    ∀ {rs : List String} {l : Option String},
      regRound fp rs l = none ↔ rs = [] ∧ l = none
  | [], l => by simp [regRound]
  | r :: rs, l => by
    rw [regRound]
    show regRound fp rs (some (fp ++ r)) = none ↔ _
    rw [regRound_eq_none]
    simp

theorem regFoldN_succ (fp : String) (call_llm : Nat → List String) :
    ∀ (n i : Nat) (l : Option String),
      regFoldN fp call_llm i (n + 1) l
        = regRound fp (call_llm (i + n)) (regFoldN fp call_llm i n l)
  | 0, i, l => by
    rw [regFoldN, regFoldN, regFoldN, Nat.add_zero]
  | n + 1, i, l => by
    rw [regFoldN, regFoldN_succ fp call_llm n (i + 1) _]
    have h : i + 1 + n = i + (n + 1) := by omega
    rw [h]
    rfl

theorem regFoldN_eq_none {fp : String} {call_llm : Nat → List String} :
    ∀ {n i : Nat} {l : Option String},
      regFoldN fp call_llm i n l = none
        ↔ (∀ t, i ≤ t → t < i + n → call_llm t = []) ∧ l = none
  | 0, i, l => by
    simp only [regFoldN]
    constructor
    · intro h
      exact ⟨fun t ht ht' => absurd ht' (by omega), h⟩
    · exact fun h => h.2
  | n + 1, i, l => by
    rw [regFoldN, regFoldN_eq_none, regRound_eq_none]
    constructor
    · rintro ⟨h₁, h₂, h₃⟩
      refine ⟨fun t ht ht' => ?_, h₃⟩
      rcases Nat.eq_or_lt_of_le ht with rfl | ht
      · exact h₂
      · exact h₁ t ht (by omega)
    · rintro ⟨h₁, h₂⟩
      exact ⟨fun t ht ht' => h₁ t (by omega) (by omega),
        h₁ i (Nat.le_refl i) (by omega), h₂⟩

section Engine

variable (extract_action : String → Option String)
variable (create_id_based_action create_playwright_action : String → Option Action)

theorem roundInv_nil (create : String → Option Action) (fp : String) :
    RoundInv extract_action create fp [] [] :=
  ⟨rfl, by simp, by simp, trivial, by simp⟩

/-- The entry list of a round is empty exactly when no sample of the round
parses fully. -/
theorem roundInv_empty_iff {create : String → Option Action} {fp : String}
    {processed : List String} {es : List VoteEntry}
    (inv : RoundInv extract_action create fp processed es) :
    es = [] ↔ processed.filterMap (fullKey extract_action create fp) = [] := by
  constructor
  · intro h
    have := inv.keys_eq
    rw [h] at this
    exact dedupFirst_eq_nil.1 this.symm
  · intro h
    have := inv.keys_eq
    rw [h] at this
    have : es.map (fun e => e.key) = [] := by
      rw [this]
      rfl
    exact List.map_eq_nil_iff.1 this

/-- Folding a whole batch preserves the invariant, never errors, and leaves
the `response` register at the last iterated sample. -/
theorem roundFold_inv (tag fp : String) (create : String → Option Action)
    (hres : ∀ s, createByTag create_id_based_action create_playwright_action tag s
      = .ok (create s)) :
    ∀ (rs : List String) {processed : List String} {es : List VoteEntry}
      (last : Option String),
      RoundInv extract_action create fp processed es →
      ∃ es', roundFold extract_action create_id_based_action
          create_playwright_action tag fp rs (es, last)
          = .ok (es', regRound fp rs last) ∧
        RoundInv extract_action create fp (processed ++ rs) es'
  | [], processed, es, last, inv =>
    ⟨es, by simp [roundFold, regRound], by simpa using inv⟩
  | r :: rs, processed, es, last, inv => by
    obtain ⟨es₁, hps, inv₁⟩ :=
      processSample_inv extract_action create_id_based_action
        create_playwright_action tag fp create hres last r inv
    obtain ⟨es', hrf, inv'⟩ :=
      roundFold_inv tag fp create hres rs (some (fp ++ r)) inv₁
    refine ⟨es', ?_, ?_⟩
    · rw [roundFold, hps]
      exact hrf
    · have harr : (processed ++ [r]) ++ rs = processed ++ r :: rs := by
        simp
      exact harr ▸ inv'

/-- Rounds without any fully-parsed sample are skipped while the budget
allows, threading only the `response` register. -/
theorem searchAgentLoop_skip (tag fp : String) (call_llm : Nat → List String)
    (max_retry : Nat) (create : String → Option Action)
    (hres : ∀ s, createByTag create_id_based_action create_playwright_action tag s
      = .ok (create s)) :
    ∀ (n i : Nat) (l : Option String),
      (∀ t, i ≤ t → t < i + n →
        (call_llm t).filterMap (fullKey extract_action create fp) = []) →
      (i + n < max_retry ∨ n = 0) →
      searchAgentLoop extract_action create_id_based_action
          create_playwright_action tag fp call_llm max_retry i l
        = searchAgentLoop extract_action create_id_based_action
            create_playwright_action tag fp call_llm max_retry (i + n)
            (regFoldN fp call_llm i n l)
  | 0, i, l, _, _ => by rw [regFoldN, Nat.add_zero]
  | n + 1, i, l, hemp, hlt => by
    have hn : i + (n + 1) < max_retry := by omega
    obtain ⟨es, hrf, inv⟩ :=
      roundFold_inv extract_action create_id_based_action
        create_playwright_action tag fp create hres (call_llm i) l
        (roundInv_nil extract_action create fp)
    have hes : es = [] := by
      refine (roundInv_empty_iff extract_action ?_).2
        (hemp i (Nat.le_refl i) (by omega))
      simpa using inv
    subst hes
    rw [searchAgentLoop, hrf]
    have hcont : ¬ (max_retry ≤ i + 1) := by omega
    simp only [List.length_nil, Nat.lt_irrefl, if_false, hcont]
    rw [searchAgentLoop_skip tag fp call_llm max_retry create hres n (i + 1)
      (regRound fp (call_llm i) l)
      (fun t ht ht' => hemp t (by omega) (by omega)) (by omega)]
    have harith : i + 1 + n = i + (n + 1) := by omega
    rw [harith, regFoldN]

/-- A round with at least one fully-parsed sample ends the loop with the
`voted` outcome after exactly one more round. -/
theorem searchAgentLoop_voted (tag fp : String) (call_llm : Nat → List String)
    (max_retry : Nat) (create : String → Option Action)
    (hres : ∀ s, createByTag create_id_based_action create_playwright_action tag s
      = .ok (create s))
    (i : Nat) (l : Option String)
    (hne : (call_llm i).filterMap (fullKey extract_action create fp) ≠ []) :
    ∃ es, searchAgentLoop extract_action create_id_based_action
        create_playwright_action tag fp call_llm max_retry i l
        = .ok (.voted es, i + 1) ∧
      RoundInv extract_action create fp (call_llm i) es ∧ es ≠ [] := by
  obtain ⟨es, hrf, inv⟩ :=
    roundFold_inv extract_action create_id_based_action
      create_playwright_action tag fp create hres (call_llm i) l
      (roundInv_nil extract_action create fp)
  have inv' : RoundInv extract_action create fp (call_llm i) es := by
    simpa using inv
  have hesne : es ≠ [] := fun h =>
    hne ((roundInv_empty_iff extract_action inv').1 h)
  have hpos : 0 < es.length := List.length_pos.2 hesne
  rw [searchAgentLoop, hrf]
  simp only [hpos, if_true]
  exact ⟨es, rfl, inv', hesne⟩

/-- The last allowed round, when it too has no fully-parsed sample, takes
the sentinel branch, reading the `response` register — `NameError` if it
was never bound. -/
theorem searchAgentLoop_final (tag fp : String) (call_llm : Nat → List String)
    (max_retry : Nat) (create : String → Option Action)
    (hres : ∀ s, createByTag create_id_based_action create_playwright_action tag s
      = .ok (create s))
    (i : Nat) (l : Option String)
    (hemp : (call_llm i).filterMap (fullKey extract_action create fp) = [])
    (hstop : max_retry ≤ i + 1) :
    searchAgentLoop extract_action create_id_based_action
        create_playwright_action tag fp call_llm max_retry i l
      = match regRound fp (call_llm i) l with
        | none => .error .nameError
        | some r => .ok (.sentinel r, i + 1) := by
  obtain ⟨es, hrf, inv⟩ :=
    roundFold_inv extract_action create_id_based_action
      create_playwright_action tag fp create hres (call_llm i) l
      (roundInv_nil extract_action create fp)
  have hes : es = [] := by
    refine (roundInv_empty_iff extract_action ?_).2 hemp
    simpa using inv
  subst hes
  rw [searchAgentLoop, hrf]
  simp only [List.length_nil, Nat.lt_irrefl, if_false, hstop, if_true]
  cases regRound fp (call_llm i) l <;> rfl

end Engine

/-- Descending-count comparison used to model Python's stable
`sorted(parsed_actions_count, key=parsed_actions_count.__getitem__,
reverse=True)`: `voteGE a b` holds when `a`'s tally is at least `b`'s. -/
def voteGE (a b : VoteEntry) : Prop := b.count ≤ a.count

instance : DecidableRel voteGE := fun a b => Nat.decLe b.count a.count

instance : IsTotal VoteEntry voteGE := ⟨fun a b => Nat.le_total b.count a.count⟩

instance : IsTrans VoteEntry voteGE :=
  ⟨fun _ _ _ h₁ h₂ => Nat.le_trans h₂ h₁⟩

/-- Strict stable-descending order: strictly greater tally first, ties in
first-seen (insertion) order. -/
def voteOrder (a b : VoteEntry) : Prop :=
  b.count < a.count ∨ (a.count = b.count ∧ a.idx < b.idx)

theorem pairwise_orderedInsert_voteOrder (x : VoteEntry) :
    ∀ {m : List VoteEntry}, m.Pairwise voteOrder →
      (∀ y ∈ m, x.idx < y.idx) →
      (List.orderedInsert voteGE x m).Pairwise voteOrder
  | [], _, _ => List.pairwise_singleton voteOrder x
  | b :: m, hp, hidx => by
    have hp' := List.pairwise_cons.1 hp
    rw [List.orderedInsert]
    by_cases h : voteGE x b
    · rw [if_pos h]
      refine List.Pairwise.cons ?_ hp
      intro y hy
      rcases List.mem_cons.1 hy with rfl | hy
      · rcases Nat.lt_or_ge y.count x.count with hlt | hge
        · exact Or.inl hlt
        · exact Or.inr ⟨Nat.le_antisymm hge h, hidx y (List.mem_cons_self _ _)⟩
      · have hby := hp'.1 y hy
        have hyx : y.count ≤ x.count := by
          have hbx : b.count ≤ x.count := h
          rcases hby with h1 | ⟨h1, -⟩ <;> omega
        rcases Nat.lt_or_ge y.count x.count with hlt | hge
        · exact Or.inl hlt
        · exact Or.inr ⟨Nat.le_antisymm hge hyx,
            hidx y (List.mem_cons_of_mem _ hy)⟩
    · rw [if_neg h]
      refine List.Pairwise.cons ?_
        (pairwise_orderedInsert_voteOrder x hp'.2
          (fun y hy => hidx y (List.mem_cons_of_mem _ hy)))
      intro y hy
      have hy' : y = x ∨ y ∈ m :=
        List.mem_cons.1 ((List.perm_orderedInsert voteGE x m).mem_iff.1 hy)
      rcases hy' with rfl | hy'
      · exact Or.inl (Nat.lt_of_not_le h)
      · exact hp'.1 y hy'

/-- Stability: `List.insertionSort voteGE` is a stable descending sort: on a list whose
ghost indices are strictly increasing (i.e. in insertion order), the output
is strictly ordered by descending tally with ties in insertion order —
exactly the guarantee of Python's stable `sorted(..., reverse=True)`. -/
theorem pairwise_insertionSort_voteOrder :
    ∀ {l : List VoteEntry}, l.Pairwise (fun a b => a.idx < b.idx) →
      (List.insertionSort voteGE l).Pairwise voteOrder
  | [], _ => List.Pairwise.nil
  | x :: l, hp => by
    have hp' := List.pairwise_cons.1 hp
    rw [List.insertionSort]
    refine pairwise_orderedInsert_voteOrder x
      (pairwise_insertionSort_voteOrder hp'.2) ?_
    intro y hy
    exact hp'.1 y ((List.perm_insertionSort voteGE l).mem_iff.1 hy)

theorem sum_map_div (l : List ℚ) (s : ℚ) :
    (l.map fun x => x / s).sum = l.sum / s := by
  induction l with
  | nil => simp
  | cons x l ih => simp [ih, add_div]

theorem sum_counts_pos (top : List VoteEntry) (hne : top ≠ [])
    (hpos : ∀ e ∈ top, 1 ≤ e.count) :
    (0 : ℚ) < (top.map fun e => (e.count : ℚ)).sum := by
  refine List.sum_pos _ (fun x hx => ?_) (by simpa using hne)
  obtain ⟨e, he, rfl⟩ := List.mem_map.1 hx
  have h1 := hpos e he
  exact_mod_cast Nat.lt_of_lt_of_le Nat.zero_lt_one h1

section Engine

variable (extract_action : String → Option String)
variable (create_id_based_action create_playwright_action : String → Option Action)

/-- Model of `SearchAgent.next_action` (`agent.py` lines 263-374), reduced to its
sample-vote-retry core.  On the `voted` outcome the entries are stably
sorted by descending tally (Python's `sorted` with `reverse=True` preserves
insertion order among equal tallies, as `List.insertionSort voteGE` does),
the top `branching_factor` are kept, `top_action_count` is the sum of the
kept tallies only, and each kept action is annotated with confidence
`count / top_action_count`.  On the `sentinel` outcome a single-element list
with the none-action (annotated with the `response` register) is returned. -/
def search_next_action (tag fp : String) (call_llm : Nat → List String)
    (max_retry branching_factor : Nat) : Except EngineError (List Action) :=
  match searchAgentLoop extract_action create_id_based_action
      create_playwright_action tag fp call_llm max_retry 0 none with
  | .error e => .error e
  | .ok (.sentinel r, _) =>
    .ok [{ create_none_action with raw_prediction := r }]
  | .ok (.voted es, _) =>
    let top := (List.insertionSort voteGE es).take branching_factor
    let top_action_count : ℚ := (top.map fun e => (e.count : ℚ)).sum
    .ok (top.map fun e =>
      { e.act with prob := some ((e.count : ℚ) / top_action_count) })

end Engine

/-- The `updated_actions` list built from the selected top entries
(`agent.py` lines 367-372): each selected entry's action annotated with
confidence `count / top_action_count`, where `top_action_count` sums the
tallies of the selected entries only. -/
def voteActions (top : List VoteEntry) : List Action :=
  top.map fun e =>
    { e.act with prob := some ((e.count : ℚ) /
      (top.map fun e' => (e'.count : ℚ)).sum) }

section Engine

variable (extract_action : String → Option String)
variable (create_id_based_action create_playwright_action : String → Option Action)

/-- The entries of a successful round `j` (all rounds before `j` without any
fully-parsed sample, round `j` with at least one), together with the value
`search_next_action` computes from them.  Shared backbone of the vote-mode
claims. -/
theorem search_next_action_voted (tag fp : String) (call_llm : Nat → List String)
    (max_retry k j : Nat) (create : String → Option Action)
    (hres : ∀ s, createByTag create_id_based_action create_playwright_action tag s
      = .ok (create s))
    (hprev : ∀ t, t < j →
      (call_llm t).filterMap (fullKey extract_action create fp) = [])
    (hj : j = 0 ∨ j < max_retry)
    (hne : (call_llm j).filterMap (fullKey extract_action create fp) ≠ []) :
    ∃ es,
      searchAgentLoop extract_action create_id_based_action
          create_playwright_action tag fp call_llm max_retry 0 none
        = .ok (.voted es, j + 1) ∧
      RoundInv extract_action create fp (call_llm j) es ∧ es ≠ [] ∧
      search_next_action extract_action create_id_based_action
          create_playwright_action tag fp call_llm max_retry k
        = .ok (voteActions ((List.insertionSort voteGE es).take k)) := by
  have hskip := searchAgentLoop_skip extract_action create_id_based_action
    create_playwright_action tag fp call_llm max_retry create hres j 0 none
    (fun t ht ht' => hprev t (by omega)) (by omega)
  rw [Nat.zero_add] at hskip
  obtain ⟨es, hloop, inv, hesne⟩ := searchAgentLoop_voted extract_action
    create_id_based_action create_playwright_action tag fp call_llm max_retry
    create hres j (regFoldN fp call_llm 0 j none) hne
  have hloop0 : searchAgentLoop extract_action create_id_based_action
      create_playwright_action tag fp call_llm max_retry 0 none
      = .ok (.voted es, j + 1) := by
    rw [hskip]
    exact hloop
  refine ⟨es, hloop0, inv, hesne, ?_⟩
  unfold search_next_action voteActions
  rw [hloop0]

/-- When every round up to the retry budget lacks a fully-parsed sample,
`SearchAgent.next_action` returns the single-element sentinel list annotated
with the final value of the `response` register, or raises `NameError` when
the register was never bound. -/
theorem search_next_action_exhaust (tag fp : String)
    (call_llm : Nat → List String) (max_retry k : Nat)
    (create : String → Option Action)
    (hres : ∀ s, createByTag create_id_based_action create_playwright_action tag s
      = .ok (create s))
    (hret : 1 ≤ max_retry)
    (hall : ∀ t, t < max_retry →
      (call_llm t).filterMap (fullKey extract_action create fp) = []) :
    search_next_action extract_action create_id_based_action
        create_playwright_action tag fp call_llm max_retry k
      = match regFoldN fp call_llm 0 max_retry none with
        | none => .error .nameError
        | some resp => .ok [{ create_none_action with raw_prediction := resp }] := by
  have hskip := searchAgentLoop_skip extract_action create_id_based_action
    create_playwright_action tag fp call_llm max_retry create hres
    (max_retry - 1) 0 none (fun t ht ht' => hall t (by omega)) (by omega)
  rw [Nat.zero_add] at hskip
  have hfin := searchAgentLoop_final extract_action create_id_based_action
    create_playwright_action tag fp call_llm max_retry create hres
    (max_retry - 1) (regFoldN fp call_llm 0 (max_retry - 1) none)
    (hall _ (by omega)) (by omega)
  unfold search_next_action
  rw [hskip, hfin]
  have hsucc : regRound fp (call_llm (max_retry - 1))
      (regFoldN fp call_llm 0 (max_retry - 1) none)
      = regFoldN fp call_llm 0 max_retry none := by
    have h := regFoldN_succ fp call_llm (max_retry - 1) 0 none
    rw [Nat.zero_add] at h
    rw [← h]
    congr 1
    omega
  rw [hsucc]
  cases regFoldN fp call_llm 0 max_retry none <;> rfl

/-! ### TeacherForcingAgent -/

/-- Tag dispatch of `TeacherForcingAgent.set_actions` (`agent.py` lines
85-92): `playwright` and `id_accessibility_tree` only; any other tag raises
an uncaught `ValueError`. -/
def createByTagTF (tag s : String) : Except EngineError (Option Action) :=
  if tag = "playwright" then .ok (create_playwright_action s)
  else if tag = "id_accessibility_tree" then .ok (create_id_based_action s)
  else .error (.valueError tag)

/-- The per-line loop of `TeacherForcingAgent.set_actions` (`agent.py` lines
82-97): each action string is parsed via the tag dispatch; a caught
`ActionParsingError` yields the sentinel none-action; every resulting action
is annotated with its source line in `raw_prediction` and appended — never
dropped. -/
def teacherFold (tag : String) : List String → Except EngineError (List Action)
  | [] => .ok []
  | a_str :: rest =>
    match createByTagTF create_id_based_action create_playwright_action
        tag a_str with
    | .error e => .error e
    | .ok none =>
      match teacherFold tag rest with
      | .error e => .error e
      | .ok acts =>
        .ok ({ create_none_action with raw_prediction := a_str } :: acts)
    | .ok (some a) =>
      match teacherFold tag rest with
      | .error e => .error e
      | .ok acts => .ok ({ a with raw_prediction := a_str } :: acts)

/-- Model of `TeacherForcingAgent.set_actions` on an already-split action sequence:
strip every line, then run the per-line loop. -/
def set_actions (tag : String) (action_strs : List String) :
    Except EngineError (List Action) :=
  teacherFold create_id_based_action create_playwright_action tag
    (action_strs.map fun a => a.trim)

/-- The teacher-forcing loop keeps one action per input line (none dropped),
annotates each with its line, and produces a none-typed action exactly for
the lines the creator rejects (given creators never produce none-typed
actions themselves). -/
theorem teacherFold_spec (tag : String) (create : String → Option Action)
    (hres : ∀ s, createByTagTF create_id_based_action create_playwright_action
      tag s = .ok (create s))
    (hnone : ∀ s a, create s = some a → a.action_type ≠ "none") :
    ∀ strs : List String, ∃ acts,
      teacherFold create_id_based_action create_playwright_action tag strs
        = .ok acts ∧
      acts.length = strs.length ∧
      ∀ i (h1 : i < acts.length) (h2 : i < strs.length),
        (acts.get ⟨i, h1⟩).raw_prediction = strs.get ⟨i, h2⟩ ∧
        ((acts.get ⟨i, h1⟩).action_type = "none"
          ↔ create (strs.get ⟨i, h2⟩) = none)
  | [] => ⟨[], rfl, rfl, fun i h1 _ => absurd h1 (by simp)⟩
  | s :: rest => by
    obtain ⟨acts, hf, hlen, hprop⟩ := teacherFold_spec tag create hres hnone rest
    rw [teacherFold, hres s]
    cases hc : create s with
    | none =>
      rw [hf]
      refine ⟨_, rfl, by simp [hlen], ?_⟩
      intro i h1 h2
      cases i with
      | zero => exact ⟨rfl, iff_of_true rfl hc⟩
      | succ i => exact hprop i (by simpa using h1) (by simpa using h2)
    | some a =>
      rw [hf]
      refine ⟨_, rfl, by simp [hlen], ?_⟩
      intro i h1 h2
      cases i with
      | zero =>
        refine ⟨rfl, ?_⟩
        constructor
        · intro h
          exact absurd h (hnone s a hc)
        · intro h
          have h' : create s = none := h
          rw [hc] at h'
          exact absurd h' (by simp)
      | succ i => exact hprop i (by simpa using h1) (by simpa using h2)

end Engine

namespace Claims

open WebAgent

/-- C1: for every force-prefix, query oracle and configuration with
`max_retry ≥ 1` (and an action-set tag whose dispatch resolves to a creator
`create`, i.e. no `ValueError`), `PromptAgent.next_action` terminates with an
`ok` result containing exactly one `Action`, after at most `max_retry` model
queries; the bounded retry counter is the sole termination guarantee. -/
theorem C1_single_shot_bounded
    (extract_action : String → Option String)
    (create_id_based_action create_playwright_action : String → Option Action)
    (tag fp : String) (call_llm : Nat → String) (max_retry : Nat)
    (create : String → Option Action)
    (hres : ∀ s, createByTag create_id_based_action create_playwright_action tag s
      = .ok (create s))
    (hret : 1 ≤ max_retry) :
    ∃ a n,
      prompt_next_action extract_action create_id_based_action
        create_playwright_action tag fp call_llm max_retry = .ok (a, n) ∧
      1 ≤ n ∧ n ≤ max_retry := by
  obtain ⟨a, m, hrun, him, hm, -⟩ :=
    promptAgentLoop_run extract_action create_id_based_action
      create_playwright_action tag fp call_llm max_retry create hres 0
  rw [Nat.zero_add, Nat.max_eq_right hret] at hm
  exact ⟨a, m, hrun, by omega, hm⟩

theorem C1_single_shot_bounded_witness :
    ∃ a n,
      prompt_next_action (fun _ => none)
        (fun _ => some { action_type := "click", raw_prediction := "", prob := none })
        (fun _ => none) "id_accessibility_tree" "" (fun _ => "resp") 3
        = .ok (a, n) ∧ 1 ≤ n ∧ n ≤ 3 :=
  C1_single_shot_bounded (fun _ => none)
    (fun _ => some { action_type := "click", raw_prediction := "", prob := none })
    (fun _ => none) "id_accessibility_tree" "" (fun _ => "resp") 3
    (fun _ => some { action_type := "click", raw_prediction := "", prob := none })
    (fun _ => rfl) (by omega)

/-- C2: if every one of the `max_retry ≥ 1` attempts fails to parse (after
force-prefixing), then exactly `max_retry` queries are issued and the result
is the sentinel no-op action whose raw text is the final attempt's
force-prefixed response text; no exception reaches the caller (the result is
`ok`). -/
theorem C2_all_attempts_fail
    (extract_action : String → Option String)
    (create_id_based_action create_playwright_action : String → Option Action)
    (tag fp : String) (call_llm : Nat → String) (max_retry : Nat)
    (create : String → Option Action)
    (hres : ∀ s, createByTag create_id_based_action create_playwright_action tag s
      = .ok (create s))
    (hret : 1 ≤ max_retry)
    (hfail : ∀ t, t < max_retry →
      pureAttempt extract_action create (fp ++ call_llm t) = none) :
    prompt_next_action extract_action create_id_based_action
      create_playwright_action tag fp call_llm max_retry
      = .ok ({ create_none_action with
                raw_prediction := fp ++ call_llm (max_retry - 1) }, max_retry) := by
  obtain ⟨a, m, hrun, him, hm, hraw, hmid, hlast⟩ :=
    promptAgentLoop_run extract_action create_id_based_action
      create_playwright_action tag fp call_llm max_retry create hres 0
  rw [Nat.zero_add, Nat.max_eq_right hret] at hm
  rcases hlast with ⟨a₀, hp, -⟩ | ⟨ha, hge, -⟩
  · exact absurd hp (by rw [hfail (m - 1) (by omega)]; simp)
  · have hmeq : m = max_retry := by omega
    rw [hmeq] at hrun ha
    unfold prompt_next_action
    rw [hrun, ha]

theorem C2_all_attempts_fail_witness :
    prompt_next_action (fun _ => none)
      (fun _ => some { action_type := "click", raw_prediction := "", prob := none })
      (fun _ => none) "id_accessibility_tree" "pre:" (fun i => toString i) 3
      = .ok ({ create_none_action with
                raw_prediction := "pre:" ++ toString (3 - 1) }, 3) :=
  C2_all_attempts_fail (fun _ => none)
    (fun _ => some { action_type := "click", raw_prediction := "", prob := none })
    (fun _ => none) "id_accessibility_tree" "pre:" (fun i => toString i) 3
    (fun _ => some { action_type := "click", raw_prediction := "", prob := none })
    (fun _ => rfl) (by omega) (fun t _ => rfl)

/-- C6: if the first query's force-prefixed text parses successfully into an
action `a₀`, then exactly one model query is issued and `a₀` (annotated with
that text) is returned. -/
theorem C6_first_parse_single_query
    (extract_action : String → Option String)
    (create_id_based_action create_playwright_action : String → Option Action)
    (tag fp : String) (call_llm : Nat → String) (max_retry : Nat)
    (create : String → Option Action)
    (hres : ∀ s, createByTag create_id_based_action create_playwright_action tag s
      = .ok (create s))
    (a₀ : Action)
    (hfirst : pureAttempt extract_action create (fp ++ call_llm 0) = some a₀) :
    prompt_next_action extract_action create_id_based_action
      create_playwright_action tag fp call_llm max_retry = .ok (a₀, 1) := by
  unfold prompt_next_action
  rw [promptAgentLoop,
    parseAttempt_eq extract_action create_id_based_action create_playwright_action
      tag create hres, hfirst]

theorem C6_first_parse_single_query_witness :
    prompt_next_action (fun s => some s)
      (fun _ => some { action_type := "click", raw_prediction := "", prob := none })
      (fun _ => none) "id_accessibility_tree" "" (fun _ => "resp") 3
      = .ok ({ action_type := "click", raw_prediction := "resp", prob := none }, 1) :=
  C6_first_parse_single_query (fun s => some s)
    (fun _ => some { action_type := "click", raw_prediction := "", prob := none })
    (fun _ => none) "id_accessibility_tree" "" (fun _ => "resp") 3
    (fun _ => some { action_type := "click", raw_prediction := "", prob := none })
    (fun _ => rfl)
    { action_type := "click", raw_prediction := "resp", prob := none } rfl

/-- C3: in every vote-mode round with at least one fully parsed sample (round
`j`, all earlier rounds having none) and `k ≥ 1`, the returned actions are the
top entries, each with confidence its own tally divided by `T` — where `T`
sums the tallies of the selected top-`k` entries only — so the confidences of
the returned actions sum to exactly 1 (in exact `ℚ` arithmetic, modelling the
source's floating point). -/
theorem C3_vote_confidence_normalization
    (extract_action : String → Option String)
    (create_id_based_action create_playwright_action : String → Option Action)
    (tag fp : String) (call_llm : Nat → List String)
    (max_retry k j : Nat) (create : String → Option Action)
    (hres : ∀ s, createByTag create_id_based_action create_playwright_action tag s
      = .ok (create s))
    (hk : 1 ≤ k)
    (hprev : ∀ t, t < j →
      (call_llm t).filterMap (fullKey extract_action create fp) = [])
    (hj : j = 0 ∨ j < max_retry)
    (hne : (call_llm j).filterMap (fullKey extract_action create fp) ≠ []) :
    ∃ top : List VoteEntry,
      search_next_action extract_action create_id_based_action
          create_playwright_action tag fp call_llm max_retry k
        = .ok (voteActions top) ∧
      (∀ e ∈ top, 1 ≤ e.count) ∧
      (∀ a ∈ voteActions top, ∃ e ∈ top, a.prob
        = some ((e.count : ℚ) / (top.map fun e' => (e'.count : ℚ)).sum)) ∧
      ((voteActions top).map fun a => a.prob.getD 0).sum = 1 := by
  obtain ⟨es, hloop, inv, hesne, hout⟩ :=
    search_next_action_voted extract_action create_id_based_action
      create_playwright_action tag fp call_llm max_retry k j create hres
      hprev hj hne
  set top := (List.insertionSort voteGE es).take k with htop
  have hmem : ∀ e ∈ top, e ∈ es := fun e he =>
    (List.perm_insertionSort voteGE es).mem_iff.1
      ((List.take_sublist k _).subset he)
  have hpos : ∀ e ∈ top, 1 ≤ e.count := fun e he => inv.count_pos e (hmem e he)
  have htopne : top ≠ [] := by
    intro h
    have h1 := congrArg List.length h
    rw [htop, List.length_take, List.length_insertionSort, List.length_nil] at h1
    have h3 : 0 < es.length := List.length_pos.2 hesne
    omega
  have hT := sum_counts_pos top htopne hpos
  refine ⟨top, hout, hpos, ?_, ?_⟩
  · intro a ha
    obtain ⟨e, he, rfl⟩ := List.mem_map.1 ha
    exact ⟨e, he, rfl⟩
  · have h1 : (voteActions top).map (fun a => a.prob.getD 0)
        = top.map fun e => (e.count : ℚ) /
            (top.map fun e' => (e'.count : ℚ)).sum := by
      rw [voteActions, List.map_map]
      exact List.map_congr_left fun e he => rfl
    have h2 : (top.map fun e : VoteEntry => (e.count : ℚ) /
          (top.map fun e' => (e'.count : ℚ)).sum)
        = (top.map fun e' : VoteEntry => (e'.count : ℚ)).map fun x =>
            x / (top.map fun e' => (e'.count : ℚ)).sum := by
      rw [List.map_map]
      exact List.map_congr_left fun e he => rfl
    rw [h1, h2, sum_map_div, div_self (ne_of_gt hT)]

theorem C3_vote_confidence_normalization_witness :
    ∃ top : List VoteEntry,
      search_next_action (fun s => some s)
          (fun s => some { action_type := s, raw_prediction := "", prob := none })
          (fun _ => none) "id_accessibility_tree" ""
          (fun _ => ["a", "a", "b"]) 1 2
        = .ok (voteActions top) ∧
      (∀ e ∈ top, 1 ≤ e.count) ∧
      (∀ a ∈ voteActions top, ∃ e ∈ top, a.prob
        = some ((e.count : ℚ) / (top.map fun e' => (e'.count : ℚ)).sum)) ∧
      ((voteActions top).map fun a => a.prob.getD 0).sum = 1 :=
  C3_vote_confidence_normalization (fun s => some s)
    (fun s => some { action_type := s, raw_prediction := "", prob := none })
    (fun _ => none) "id_accessibility_tree" "" (fun _ => ["a", "a", "b"]) 1 2 0
    (fun s => some { action_type := s, raw_prediction := "", prob := none })
    (fun _ => rfl) (by omega) (fun t ht => absurd ht (by omega)) (Or.inl rfl)
    (by decide)

/-- C4: for every branching factor `k ≥ 1` and every vote-mode trace whose
round `j` is the first with at least one fully parsed sample, the returned
list has length `min k (number of distinct fully-parsed action keys of round
j)`, and the loop stops after round `j` (it runs exactly `j + 1` rounds). -/
theorem C4_vote_topk_length
    (extract_action : String → Option String)
    (create_id_based_action create_playwright_action : String → Option Action)
    (tag fp : String) (call_llm : Nat → List String)
    (max_retry k j : Nat) (create : String → Option Action)
    (hres : ∀ s, createByTag create_id_based_action create_playwright_action tag s
      = .ok (create s))
    (_hk : 1 ≤ k)
    (hprev : ∀ t, t < j →
      (call_llm t).filterMap (fullKey extract_action create fp) = [])
    (hj : j = 0 ∨ j < max_retry)
    (hne : (call_llm j).filterMap (fullKey extract_action create fp) ≠ []) :
    ∃ acts es,
      search_next_action extract_action create_id_based_action
          create_playwright_action tag fp call_llm max_retry k = .ok acts ∧
      searchAgentLoop extract_action create_id_based_action
          create_playwright_action tag fp call_llm max_retry 0 none
        = .ok (.voted es, j + 1) ∧
      acts.length = min k (dedupFirst ((call_llm j).filterMap
        (fullKey extract_action create fp))).length := by
  obtain ⟨es, hloop, inv, hesne, hout⟩ :=
    search_next_action_voted extract_action create_id_based_action
      create_playwright_action tag fp call_llm max_retry k j create hres
      hprev hj hne
  refine ⟨_, es, hout, hloop, ?_⟩
  rw [voteActions, List.length_map, List.length_take, List.length_insertionSort]
  have hlen : es.length = (dedupFirst ((call_llm j).filterMap
      (fullKey extract_action create fp))).length := by
    have h := congrArg List.length inv.keys_eq
    rwa [List.length_map] at h
  rw [hlen]

theorem C4_vote_topk_length_witness :
    ∃ acts es,
      search_next_action (fun s => some s)
          (fun s => some { action_type := s, raw_prediction := "", prob := none })
          (fun _ => none) "id_accessibility_tree" ""
          (fun _ => ["a", "a", "b"]) 1 5 = .ok acts ∧
      searchAgentLoop (fun s => some s)
          (fun s => some { action_type := s, raw_prediction := "", prob := none })
          (fun _ => none) "id_accessibility_tree" ""
          (fun _ => ["a", "a", "b"]) 1 0 none
        = .ok (.voted es, 0 + 1) ∧
      acts.length = min 5 (dedupFirst ((["a", "a", "b"] : List String).filterMap
        (fullKey (fun s => some s)
          (fun s => some { action_type := s, raw_prediction := "", prob := none })
          ""))).length :=
  C4_vote_topk_length (fun s => some s)
    (fun s => some { action_type := s, raw_prediction := "", prob := none })
    (fun _ => none) "id_accessibility_tree" "" (fun _ => ["a", "a", "b"]) 1 5 0
    (fun s => some { action_type := s, raw_prediction := "", prob := none })
    (fun _ => rfl) (by omega) (fun t ht => absurd ht (by omega)) (Or.inl rfl)
    (by decide)

/-- C5: in every successful vote-mode round the returned actions are ordered
by strictly descending tally with ties broken by first-seen (insertion)
order of their keys (`voteOrder` pairwise on the selected entries, whose
ghost `idx` fields record insertion order); in particular every entry with
tally 2 precedes every entry with tally 1, and when `k` is at least the
number of distinct keys every entry (in particular every tally-2 entry) is
selected. -/
theorem C5_vote_tie_break
    (extract_action : String → Option String)
    (create_id_based_action create_playwright_action : String → Option Action)
    (tag fp : String) (call_llm : Nat → List String)
    (max_retry k j : Nat) (create : String → Option Action)
    (hres : ∀ s, createByTag create_id_based_action create_playwright_action tag s
      = .ok (create s))
    (hprev : ∀ t, t < j →
      (call_llm t).filterMap (fullKey extract_action create fp) = [])
    (hj : j = 0 ∨ j < max_retry)
    (hne : (call_llm j).filterMap (fullKey extract_action create fp) ≠ []) :
    ∃ es top,
      searchAgentLoop extract_action create_id_based_action
          create_playwright_action tag fp call_llm max_retry 0 none
        = .ok (.voted es, j + 1) ∧
      top = (List.insertionSort voteGE es).take k ∧
      search_next_action extract_action create_id_based_action
          create_playwright_action tag fp call_llm max_retry k
        = .ok (voteActions top) ∧
      IdxOK 0 es ∧
      (∀ e ∈ top, e.count
        = ((call_llm j).filterMap (fullKey extract_action create fp)).count e.key) ∧
      top.Pairwise voteOrder ∧
      (∀ (i₁ i₂ : Fin top.length),
        (top.get i₁).count = 2 → (top.get i₂).count = 1 → (i₁ : Nat) < i₂) ∧
      (es.length ≤ k → ∀ e ∈ es, e ∈ top) := by
  obtain ⟨es, hloop, inv, hesne, hout⟩ :=
    search_next_action_voted extract_action create_id_based_action
      create_playwright_action tag fp call_llm max_retry k j create hres
      hprev hj hne
  set top := (List.insertionSort voteGE es).take k with htop
  have hmem : ∀ e ∈ top, e ∈ es := fun e he =>
    (List.perm_insertionSort voteGE es).mem_iff.1
      ((List.take_sublist k _).subset he)
  have hsorted : (List.insertionSort voteGE es).Pairwise voteOrder :=
    pairwise_insertionSort_voteOrder (idxOK_pairwise inv.idx_ok)
  have hpair : top.Pairwise voteOrder := hsorted.sublist (List.take_sublist k _)
  refine ⟨es, top, hloop, htop, hout, inv.idx_ok,
    fun e he => inv.counts e (hmem e he), hpair, ?_, ?_⟩
  · intro i₁ i₂ h2 h1
    rcases Nat.lt_trichotomy (i₁ : Nat) (i₂ : Nat) with hlt | heq | hgt
    · exact hlt
    · exfalso
      have : i₁ = i₂ := Fin.ext heq
      rw [this, h1] at h2
      exact absurd h2 (by omega)
    · exfalso
      have hvo : voteOrder (top.get i₂) (top.get i₁) :=
        List.pairwise_iff_get.1 hpair i₂ i₁ hgt
      rcases hvo with hvo | ⟨hvo, -⟩
      · omega
      · omega
  · intro hlen e he
    have : top = List.insertionSort voteGE es := by
      rw [htop]
      exact List.take_of_length_le (by rw [List.length_insertionSort]; exact hlen)
    rw [this]
    exact (List.perm_insertionSort voteGE es).mem_iff.2 he

theorem C5_vote_tie_break_witness :
    ∃ es top,
      searchAgentLoop (fun s => some s)
          (fun s => some { action_type := s, raw_prediction := "", prob := none })
          (fun _ => none) "id_accessibility_tree" ""
          (fun _ => ["a", "b", "c", "b", "c", "d"]) 1 0 none
        = .ok (.voted es, 0 + 1) ∧
      top = (List.insertionSort voteGE es).take 4 ∧
      search_next_action (fun s => some s)
          (fun s => some { action_type := s, raw_prediction := "", prob := none })
          (fun _ => none) "id_accessibility_tree" ""
          (fun _ => ["a", "b", "c", "b", "c", "d"]) 1 4
        = .ok (voteActions top) ∧
      IdxOK 0 es ∧
      (∀ e ∈ top, e.count
        = ((["a", "b", "c", "b", "c", "d"] : List String).filterMap
            (fullKey (fun s => some s)
              (fun s => some { action_type := s, raw_prediction := "", prob := none })
              "")).count e.key) ∧
      top.Pairwise voteOrder ∧
      (∀ (i₁ i₂ : Fin top.length),
        (top.get i₁).count = 2 → (top.get i₂).count = 1 → (i₁ : Nat) < i₂) ∧
      (es.length ≤ 4 → ∀ e ∈ es, e ∈ top) :=
  C5_vote_tie_break (fun s => some s)
    (fun s => some { action_type := s, raw_prediction := "", prob := none })
    (fun _ => none) "id_accessibility_tree" ""
    (fun _ => ["a", "b", "c", "b", "c", "d"]) 1 4 0
    (fun s => some { action_type := s, raw_prediction := "", prob := none })
    (fun _ => rfl) (fun t ht => absurd ht (by omega)) (Or.inl rfl) (by decide)

/-- C7 counterexample: with two images captioned `"A cat"` and `"A dog"`, the
rewritten intent is NOT the claimed string — the caption loop also appends a
trailing `", "` after the last caption whenever more than one image is
supplied. -/
theorem C7_caption_cex :
    rewrittenIntent ["A cat", "A dog"] "orig"
      ≠ "Input image 1: \"A cat\", input image 2: \"A dog\"\nIntent: orig" := by
  decide

/-- C7 (amended): with two images captioned `"A cat"` and `"A dog"`, the
intent is rewritten to
`'Input image 1: "A cat", input image 2: "A dog", \nIntent: <original>'` —
exactly as claimed except for a trailing `", "` after the final caption,
which the loop emits for every image when more than one image is given. -/
theorem C7_caption_amended (intent : String) :
    rewrittenIntent ["A cat", "A dog"] intent
      = "Input image 1: \"A cat\", input image 2: \"A dog\", \nIntent: " ++ intent :=
  rfl

/-- C8: every committed action carries its originating raw model text: the
single-shot policy returns an action annotated with the (force-prefixed)
text of the terminating attempt; in vote mode the returned list is
`voteActions top` over the selected entries, whose keys are pairwise
distinct, and each selected entry `e` — the representative retained for its
canonical key `e.key` — is the action created from `e.key` annotated with
the force-prefixed FIRST sample of the round whose extraction yields
`e.key` itself, and the returned action derived from `e` carries that same
raw text. -/
theorem C8_raw_prediction
    (pextract : String → Option String)
    (pcid pcpw : String → Option Action)
    (ptag pfp : String) (pcall : Nat → String) (pmax : Nat)
    (pcreate : String → Option Action)
    (phres : ∀ s, createByTag pcid pcpw ptag s = .ok (pcreate s))
    (sextract : String → Option String)
    (scid scpw : String → Option Action)
    (stag sfp : String) (scall : Nat → List String) (smax sk sj : Nat)
    (screate : String → Option Action)
    (shres : ∀ s, createByTag scid scpw stag s = .ok (screate s))
    (sprev : ∀ t, t < sj →
      (scall t).filterMap (fullKey sextract screate sfp) = [])
    (shj : sj = 0 ∨ sj < smax)
    (sne : (scall sj).filterMap (fullKey sextract screate sfp) ≠ []) :
    (∀ a n, prompt_next_action pextract pcid pcpw ptag pfp pcall pmax
        = .ok (a, n) → a.raw_prediction = pfp ++ pcall (n - 1)) ∧
    (∃ es top,
      searchAgentLoop sextract scid scpw stag sfp scall smax 0 none
        = .ok (.voted es, sj + 1) ∧
      top = (List.insertionSort voteGE es).take sk ∧
      search_next_action sextract scid scpw stag sfp scall smax sk
        = .ok (voteActions top) ∧
      (es.map fun e => e.key).Nodup ∧
      ∀ e ∈ top, ∃ a₀ r,
        screate e.key = some a₀ ∧
        (scall sj).find?
          (fun r' => decide (sextract (sfp ++ r') = some e.key)) = some r ∧
        e.act = { a₀ with raw_prediction := sfp ++ r } ∧
        ({ e.act with prob := some ((e.count : ℚ) /
            (top.map fun e' => (e'.count : ℚ)).sum) } : Action).raw_prediction
          = sfp ++ r) := by
  constructor
  · intro a n hrun
    obtain ⟨a', m, hrun', -, -, hraw, -, -⟩ :=
      promptAgentLoop_run pextract pcid pcpw ptag pfp pcall pmax pcreate phres 0
    rw [prompt_next_action, hrun'] at hrun
    simp only [Except.ok.injEq, Prod.mk.injEq] at hrun
    obtain ⟨rfl, rfl⟩ := hrun
    exact hraw
  · obtain ⟨es, hloop, inv, hesne, hout⟩ :=
      search_next_action_voted sextract scid scpw stag sfp scall smax sk sj
        screate shres sprev shj sne
    refine ⟨es, (List.insertionSort voteGE es).take sk, hloop, rfl, hout,
      by rw [inv.keys_eq]; exact nodup_dedupFirst _, ?_⟩
    intro e he
    have hees : e ∈ es :=
      (List.perm_insertionSort voteGE es).mem_iff.1
        ((List.take_sublist sk _).subset he)
    obtain ⟨a₀, r, hc, hf, hact⟩ := inv.acts e hees
    refine ⟨a₀, r, hc, hf, hact, ?_⟩
    show e.act.raw_prediction = sfp ++ r
    rw [hact]

theorem C8_raw_prediction_witness :
    (∀ a n, prompt_next_action (fun s => some s)
        (fun s => some { action_type := s, raw_prediction := "", prob := none })
        (fun _ => none) "id_accessibility_tree" "p:" (fun i => toString i) 3
        = .ok (a, n) → a.raw_prediction = "p:" ++ toString (n - 1)) ∧
    (∃ es top,
      searchAgentLoop (fun s => some s)
          (fun s => some { action_type := s, raw_prediction := "", prob := none })
          (fun _ => none) "id_accessibility_tree" "q:"
          (fun _ => ["a", "b", "a"]) 1 0 none
        = .ok (.voted es, 0 + 1) ∧
      top = (List.insertionSort voteGE es).take 3 ∧
      search_next_action (fun s => some s)
          (fun s => some { action_type := s, raw_prediction := "", prob := none })
          (fun _ => none) "id_accessibility_tree" "q:"
          (fun _ => ["a", "b", "a"]) 1 3
        = .ok (voteActions top) ∧
      (es.map fun e => e.key).Nodup ∧
      ∀ e ∈ top, ∃ a₀ r,
        (fun s => (some { action_type := s, raw_prediction := "", prob := none }
          : Option Action)) e.key = some a₀ ∧
        (["a", "b", "a"] : List String).find?
          (fun r' => decide ((fun s => (some s : Option String)) ("q:" ++ r')
            = some e.key)) = some r ∧
        e.act = ({ a₀ with raw_prediction := "q:" ++ r } : Action) ∧
        ({ e.act with prob := some ((e.count : ℚ) /
            (top.map fun e' => (e'.count : ℚ)).sum) } : Action).raw_prediction
          = "q:" ++ r) :=
  C8_raw_prediction (fun s => some s)
    (fun s => some { action_type := s, raw_prediction := "", prob := none })
    (fun _ => none) "id_accessibility_tree" "p:" (fun i => toString i) 3
    (fun s => some { action_type := s, raw_prediction := "", prob := none })
    (fun _ => rfl) (fun s => some s)
    (fun s => some { action_type := s, raw_prediction := "", prob := none })
    (fun _ => none) "id_accessibility_tree" "q:" (fun _ => ["a", "b", "a"]) 1 3 0
    (fun s => some { action_type := s, raw_prediction := "", prob := none })
    (fun _ => rfl) (fun t ht => absurd ht (by omega)) (Or.inl rfl) (by decide)

/-- C9: a none-typed (sentinel) action is produced by the single-shot policy
only after the retry budget is exhausted with every attempt parse-failing;
the vote policy's voted path never returns one (it arises only on the
sentinel branch after budget exhaustion); and the teacher-forcing agent
keeps exactly one action per scripted line — never dropping any — with a
none-typed action exactly for the lines its parser rejects.  (All assuming
the external creators never themselves return a none-typed action.) -/
theorem C9_none_only_on_exhaustion
    (pextract : String → Option String)
    (pcid pcpw : String → Option Action)
    (ptag pfp : String) (pcall : Nat → String) (pmax : Nat)
    (pcreate : String → Option Action)
    (phres : ∀ s, createByTag pcid pcpw ptag s = .ok (pcreate s))
    (phnone : ∀ s a, pcreate s = some a → a.action_type ≠ "none")
    (sextract : String → Option String)
    (scid scpw : String → Option Action)
    (stag sfp : String) (scall : Nat → List String) (smax sk sj : Nat)
    (screate : String → Option Action)
    (shres : ∀ s, createByTag scid scpw stag s = .ok (screate s))
    (shnone : ∀ s a, screate s = some a → a.action_type ≠ "none")
    (sprev : ∀ t, t < sj →
      (scall t).filterMap (fullKey sextract screate sfp) = [])
    (shj : sj = 0 ∨ sj < smax)
    (sne : (scall sj).filterMap (fullKey sextract screate sfp) ≠ [])
    (tcid tcpw : String → Option Action) (ttag : String)
    (tcreate : String → Option Action)
    (thres : ∀ s, createByTagTF tcid tcpw ttag s = .ok (tcreate s))
    (thnone : ∀ s a, tcreate s = some a → a.action_type ≠ "none")
    (tstrs : List String) :
    (∀ a n, prompt_next_action pextract pcid pcpw ptag pfp pcall pmax
        = .ok (a, n) → a.action_type = "none" →
      pmax ≤ n ∧ ∀ t, t < n →
        pureAttempt pextract pcreate (pfp ++ pcall t) = none) ∧
    (∃ acts, search_next_action sextract scid scpw stag sfp scall smax sk
        = .ok acts ∧ ∀ a ∈ acts, a.action_type ≠ "none") ∧
    (∃ acts, set_actions tcid tcpw ttag tstrs = .ok acts ∧
      acts.length = tstrs.length ∧
      ∀ i (h1 : i < acts.length)
          (h2 : i < (tstrs.map fun s => s.trim).length),
        (acts.get ⟨i, h1⟩).raw_prediction
          = (tstrs.map fun s => s.trim).get ⟨i, h2⟩ ∧
        ((acts.get ⟨i, h1⟩).action_type = "none"
          ↔ tcreate ((tstrs.map fun s => s.trim).get ⟨i, h2⟩) = none)) := by
    refine ⟨?_, ?_, ?_⟩
    · intro a n hrun htype
      obtain ⟨a', m, hrun', -, -, -, hmid, hlast⟩ :=
        promptAgentLoop_run pextract pcid pcpw ptag pfp pcall pmax pcreate
          phres 0
      rw [prompt_next_action, hrun'] at hrun
      simp only [Except.ok.injEq, Prod.mk.injEq] at hrun
      obtain ⟨rfl, rfl⟩ := hrun
      rcases hlast with ⟨a₀, hp, rfl⟩ | ⟨-, hge, hfin⟩
      · exfalso
        obtain ⟨key, a₁, -, hc, ha₀⟩ := pureAttempt_some_elim pextract hp
        have htype' : a₁.action_type = "none" := by
          rw [ha₀] at htype
          exact htype
        exact absurd htype' (phnone key a₁ hc)
      · refine ⟨hge, fun t ht => ?_⟩
        rcases Nat.lt_or_ge (t + 1) m with h | h
        · exact hmid t (Nat.zero_le t) h
        · have heq : t = m - 1 := by omega
          rw [heq]
          exact hfin
    · obtain ⟨es, hloop, inv, hesne, hout⟩ :=
        search_next_action_voted sextract scid scpw stag sfp scall smax sk sj
          screate shres sprev shj sne
      refine ⟨_, hout, ?_⟩
      intro a ha
      rw [voteActions] at ha
      obtain ⟨e, he, rfl⟩ := List.mem_map.1 ha
      have hees : e ∈ es :=
        (List.perm_insertionSort voteGE es).mem_iff.1
          ((List.take_sublist sk _).subset he)
      obtain ⟨a₀, r, hc, -, hact⟩ := inv.acts e hees
      intro htype
      have htype' : a₀.action_type = "none" := by
        have h1 : e.act.action_type = "none" := htype
        rw [hact] at h1
        exact h1
      exact absurd htype' (shnone e.key a₀ hc)
    · obtain ⟨acts, hf, hlen, hprop⟩ :=
        teacherFold_spec tcid tcpw ttag tcreate thres thnone
          (tstrs.map fun s => s.trim)
      refine ⟨acts, hf, by rw [hlen, List.length_map], hprop⟩

theorem C9_none_only_on_exhaustion_witness :
    (∀ a n, prompt_next_action (fun _ => none)
        (fun _ => some { action_type := "click", raw_prediction := "", prob := none })
        (fun _ => none) "id_accessibility_tree" "" (fun i => toString i) 2
        = .ok (a, n) → a.action_type = "none" →
      2 ≤ n ∧ ∀ t, t < n →
        pureAttempt (fun _ => none)
          (fun _ => some { action_type := "click", raw_prediction := "", prob := none })
          ("" ++ toString t) = none) ∧
    (∃ acts, search_next_action (fun s => some s)
        (fun _ => some { action_type := "click", raw_prediction := "", prob := none })
        (fun _ => none) "id_accessibility_tree" "" (fun _ => ["a", "b"]) 1 2
        = .ok acts ∧ ∀ a ∈ acts, a.action_type ≠ "none") ∧
    (∃ acts, set_actions
        (fun s => if s = "bad" then (none : Option Action)
          else some { action_type := "click", raw_prediction := "", prob := none })
        (fun _ => none) "id_accessibility_tree" [" go ", "bad"] = .ok acts ∧
      acts.length = ([" go ", "bad"] : List String).length ∧
      ∀ i (h1 : i < acts.length)
          (h2 : i < (([" go ", "bad"] : List String).map
            fun s => s.trim).length),
        (acts.get ⟨i, h1⟩).raw_prediction
          = (([" go ", "bad"] : List String).map fun s => s.trim).get ⟨i, h2⟩ ∧
        ((acts.get ⟨i, h1⟩).action_type = "none"
          ↔ (fun s => if s = "bad" then (none : Option Action)
              else some { action_type := "click", raw_prediction := "", prob := none })
            ((([" go ", "bad"] : List String).map fun s => s.trim).get ⟨i, h2⟩)
            = none)) :=
  C9_none_only_on_exhaustion (fun _ => none)
    (fun _ => some { action_type := "click", raw_prediction := "", prob := none })
    (fun _ => none) "id_accessibility_tree" "" (fun i => toString i) 2
    (fun _ => some { action_type := "click", raw_prediction := "", prob := none })
    (fun _ => rfl)
    (fun s a h => by
      injection h with h
      rw [← h]
      decide)
    (fun s => some s)
    (fun _ => some { action_type := "click", raw_prediction := "", prob := none })
    (fun _ => none) "id_accessibility_tree" "" (fun _ => ["a", "b"]) 1 2 0
    (fun _ => some { action_type := "click", raw_prediction := "", prob := none })
    (fun _ => rfl)
    (fun s a h => by
      injection h with h
      rw [← h]
      decide)
    (fun t ht => absurd ht (by omega)) (Or.inl rfl) (by decide)
    (fun s => if s = "bad" then (none : Option Action)
      else some { action_type := "click", raw_prediction := "", prob := none })
    (fun _ => none) "id_accessibility_tree"
    (fun s => if s = "bad" then (none : Option Action)
      else some { action_type := "click", raw_prediction := "", prob := none })
    (fun _ => rfl)
    (fun s a h => by
      dsimp only at h
      by_cases hs : s = "bad"
      · rw [if_pos hs] at h
        exact absurd h (by simp)
      · rw [if_neg hs] at h
        injection h with h
        rw [← h]
        decide)
    [" go ", "bad"]

/-- C10 counterexample: with `max_retry = 2`, an empty first-round batch and
a non-empty all-unparseable second-round batch, the first round's batch is
empty and the retry budget is reached, yet no `NameError` is raised: the
sentinel list is returned, annotated with the second round's last sample.
A second trace (non-empty unparseable first batch, empty second batch)
shows the sentinel raw text coming from a non-final round. -/
theorem C10_first_round_empty_cex :
    (fun i => if i = 0 then ([] : List String) else ["garbage"]) 0 = [] ∧
    search_next_action (fun _ => none) (fun _ => none) (fun _ => none)
      "id_accessibility_tree" ""
      (fun i => if i = 0 then ([] : List String) else ["garbage"]) 2 5
      = .ok [{ create_none_action with raw_prediction := "garbage" }] ∧
    search_next_action (fun _ => none) (fun _ => none) (fun _ => none)
      "id_accessibility_tree" ""
      (fun i => if i = 0 then ["x"] else ([] : List String)) 2 5
      = .ok [{ create_none_action with raw_prediction := "x" }] := by
  refine ⟨rfl, ?_, ?_⟩
  · rw [search_next_action_exhaust (fun _ => none) (fun _ => none)
      (fun _ => none) "id_accessibility_tree" ""
      (fun i => if i = 0 then ([] : List String) else ["garbage"]) 2 5
      (fun _ => none) (fun _ => rfl) (by omega) (by decide)]
    rfl
  · rw [search_next_action_exhaust (fun _ => none) (fun _ => none)
      (fun _ => none) "id_accessibility_tree" ""
      (fun i => if i = 0 then ["x"] else ([] : List String)) 2 5
      (fun _ => none) (fun _ => rfl) (by omega) (by decide)]
    rfl

/-- C10 (amended): when every round up to the retry budget lacks a
fully-parsed sample, the vote policy returns the single-element sentinel
list annotated with the final value of the `response` register — the
force-prefixed last sample of the most recent non-empty batch, not
necessarily of the final round — and raises an unhandled `NameError`
exactly when every iterated batch was empty (the register was never bound),
not merely when the first round's batch is empty. -/
theorem C10_sentinel_register_amended
    (extract_action : String → Option String)
    (create_id_based_action create_playwright_action : String → Option Action)
    (tag fp : String) (call_llm : Nat → List String) (max_retry k : Nat)
    (create : String → Option Action)
    (hres : ∀ s, createByTag create_id_based_action create_playwright_action
      tag s = .ok (create s))
    (hret : 1 ≤ max_retry)
    (hall : ∀ t, t < max_retry →
      (call_llm t).filterMap (fullKey extract_action create fp) = []) :
    (search_next_action extract_action create_id_based_action
        create_playwright_action tag fp call_llm max_retry k
      = match regFoldN fp call_llm 0 max_retry none with
        | none => .error .nameError
        | some resp =>
          .ok [{ create_none_action with raw_prediction := resp }]) ∧
    (regFoldN fp call_llm 0 max_retry none = none
      ↔ ∀ t, t < max_retry → call_llm t = []) := by
  refine ⟨search_next_action_exhaust extract_action create_id_based_action
    create_playwright_action tag fp call_llm max_retry k create hres hret
    hall, ?_⟩
  constructor
  · intro h t ht
    exact (regFoldN_eq_none.1 h).1 t (by omega) (by omega)
  · intro h
    exact regFoldN_eq_none.2 ⟨fun t ht ht' => h t (by omega), rfl⟩

theorem C10_sentinel_register_amended_witness :
    (search_next_action (fun _ => none) (fun _ => none) (fun _ => none)
        "id_accessibility_tree" "" (fun _ => ([] : List String)) 1 5
      = match regFoldN "" (fun _ => ([] : List String)) 0 1 none with
        | none => .error .nameError
        | some resp =>
          .ok [{ create_none_action with raw_prediction := resp }]) ∧
    (regFoldN "" (fun _ => ([] : List String)) 0 1 none = none
      ↔ ∀ t, t < 1 → (fun _ => ([] : List String)) t = []) :=
  C10_sentinel_register_amended (fun _ => none) (fun _ => none)
    (fun _ => none) "id_accessibility_tree" "" (fun _ => ([] : List String))
    1 5 (fun _ => none) (fun _ => rfl) (by omega) (by decide)

end Claims

end WebAgent
